import Mathlib

/-!
Shallow embedding of the go-gimp-palette decoder (`ReadPalette`, `parseRow`,
`putBack`, `readLines`) from the Go sources `pipeline.go` and the decoder file.

Strings are modelled as `List Char` (`GoStr`).  The streaming line source is
modelled by the list of lines the scanner successfully yields plus a flag
`readErr` saying whether the scanner terminates with a read error instead of a
normal end of input.  The deferred `multierr` drain of the error channel in
`ReadPalette` receives the scanner error exactly when the scanner goroutine
finished scanning, which (with the unbuffered line channel) happens exactly
when the decoder consumed every yielded line before returning; `streamErrs`
models this by appending the read error when the remaining pending list is
empty at the point of return.  Push-back (`putBack`) is head-prepend on the
pending list, matching the one-slot-buffered forwarding channel in the Go
code.
-/

/-- Go strings, modelled as lists of characters. -/
abbrev GoStr := List Char

/-- `unicode.IsSpace` restricted to the Latin-1 space characters Go checks:
`\t`, `\n`, `\v`, `\f`, `\r`, space, NEL (U+0085) and NBSP (U+00A0). -/
def goIsSpace (c : Char) : Bool :=
  c = ' ' || c = '\t' || c = '\n' || c = Char.ofNat 11 || c = Char.ofNat 12 ||
  c = '\r' || c = Char.ofNat 0x85 || c = Char.ofNat 0xA0

/-- `strings.HasPrefix s pfx`. -/
def goHasPfx : GoStr → GoStr → Bool
  | _, [] => true
  | [], _ :: _ => false
  | c :: s, p :: ps => c = p && goHasPfx s ps

/-- `strings.TrimSpace`: drop `unicode.IsSpace` characters from both ends. -/
def trimSpace (s : GoStr) : GoStr :=
  ((s.dropWhile goIsSpace).reverse.dropWhile goIsSpace).reverse

/-- Decimal value of a list of digit characters (most significant first). -/
def digitsToInt (tok : GoStr) : Int :=
  tok.foldl (fun a c => a * 10 + ((c.toNat : Int) - 48)) 0

/-- `fmt.Sscanf(s, "%d", &v)`: skip leading space, an optional single sign,
then a nonempty run of decimal digits (trailing input is ignored).  The digit
token is parsed by `strconv.ParseInt(_, 10, 64)`, so a value outside the
signed 64-bit range is a scan error and the target is left unassigned. -/
def scanInt (s : GoStr) : Option Int :=
  let s1 := s.dropWhile goIsSpace
  let neg := s1.head? = some '-'
  let s2 := if s1.head? = some '-' ∨ s1.head? = some '+' then s1.tail else s1
  let tok := s2.takeWhile Char.isDigit
  if tok = [] then none
  else
    let v : Int := if neg then -(digitsToInt tok) else digitsToInt tok
    if v < -(2 ^ 63) ∨ 2 ^ 63 - 1 < v then none else some v

/-- The two parsing modes of the decoder. -/
inductive ParsingMode
  | lenient
  | strict
deriving DecidableEq

/-- The classified decode errors (`errBadHeader`, …); `badColumns` stands for
the wrapped `bad columns entry: %w` error and `readError` for an underlying
stream failure surfaced from the scanner error channel. -/
inductive PaletteError
  | badHeader
  | missingName
  | missingColumns
  | badColumns
  | missingField
  | outOfRange
  | malformedRow
  | readError
deriving DecidableEq

/-- `color.RGBA`: four 8-bit channels, each kept as a `Nat` in `[0,255]`. -/
structure RGBA where
  r : Nat
  g : Nat
  b : Nat
  a : Nat
deriving DecidableEq

/-- One color swatch: optional label plus its color. -/
structure PaletteEntry where
  name : GoStr
  color : RGBA
deriving DecidableEq

/-- The decoded palette document. -/
structure Palette where
  name : GoStr
  columns : Int
  comments : List GoStr
  entries : List PaletteEntry
deriving DecidableEq

instance instDecEqExcept {ε α : Type} [DecidableEq ε] [DecidableEq α] :
    DecidableEq (Except ε α) := fun a b =>
  match a, b with
  | .error e1, .error e2 =>
    if h : e1 = e2 then .isTrue (by rw [h]) else .isFalse (by simp [h])
  | .ok a1, .ok a2 =>
    if h : a1 = a2 then .isTrue (by rw [h]) else .isFalse (by simp [h])
  | .error _, .ok _ => .isFalse (by simp)
  | .ok _, .error _ => .isFalse (by simp)

/-- The magic header line. -/
def magicHeader : GoStr := "GIMP Palette".data

/-- The name-declaration line marker. -/
def namePfx : GoStr := "Name: ".data

/-- The columns-declaration line marker. -/
def colPfx : GoStr := "Columns: ".data

/-- `strings.FieldsFunc` with the stateful closure of `parseRow`: a single
left-to-right pass in which each whitespace character examined while fewer
than three separators have been counted acts as a separator and increments
the count (consecutive whitespace characters each consume one count), and
empty fields are dropped.  `acc` holds the current field reversed. -/
def fieldsAux : List Char → Nat → List Char → List GoStr
  | [], _, acc => if acc = [] then [] else [acc.reverse]
  | c :: rest, cnt, acc =>
    if goIsSpace c = true ∧ cnt < 3 then
      (if acc = [] then [] else [acc.reverse]) ++ fieldsAux rest (cnt + 1) []
    else fieldsAux rest cnt (c :: acc)

/-- The field split used by `parseRow`. -/
def fieldsFunc (line : GoStr) : List GoStr := fieldsAux line 0 []

/-- `processField` inside `parseRow`: scan the field with `%d` (on failure the
target stays `0`, with `errMalformedRow` recorded in Strict mode), then clamp
out-of-range values into `[0,255]` (recording `errOutOfRange` in Strict mode).
The Go clamp `int(math.Trunc(math.Max(0, math.Min(255, float64 v))))` is exact
for every `int64` input, as is the final `uint8(v & 0xFF)` conversion, since
the clamped value always lies in `[0,255]`. -/
def processField (mode : ParsingMode) (field : GoStr) : Nat × List PaletteError :=
  match scanInt field with
  | none =>
    (0, if mode = .strict then [.malformedRow] else [])
  | some v =>
    if v < 0 ∨ 255 < v then
      (if v < 0 then 0 else 255, if mode = .strict then [.outOfRange] else [])
    else (v.toNat, [])

/-- `parseRow`: split the line, fail with `errMissingField` in Strict mode
when fewer than 3 fields were produced, process the up-to-three numeric
fields in order collecting their faults, fail with the collected faults when
any, and otherwise build the entry (the fourth field, when present, is the
entry name; the color was zero-initialized with alpha 255). -/
def parseRow (line : GoStr) (mode : ParsingMode) :
    Except (List PaletteError) PaletteEntry :=
  let fields := fieldsFunc line
  if mode = .strict ∧ fields.length < 3 then .error [.missingField]
  else
    let rr := if 1 ≤ fields.length then processField mode (fields.getD 0 []) else (0, [])
    let gg := if 2 ≤ fields.length then processField mode (fields.getD 1 []) else (0, [])
    let bb := if 3 ≤ fields.length then processField mode (fields.getD 2 []) else (0, [])
    let fieldErrs := rr.2 ++ gg.2 ++ bb.2
    if fieldErrs = [] then
      .ok ⟨if 4 ≤ fields.length then fields.getD 3 [] else [], ⟨rr.1, gg.1, bb.1, 255⟩⟩
    else .error fieldErrs

/-- `putBack`: the returned channel yields `line` first and then every line of
the incoming pending sequence in order, i.e. head-prepend. -/
def putBack (line : GoStr) (pending : List GoStr) : List GoStr :=
  line :: pending

/-- The deferred drain of the scanner error channel: the scanner error reaches
the drain exactly when every yielded line was consumed before the decoder
returned (otherwise the scanner goroutine is stopped by `close(done)` while
still blocked sending, and never reaches its `scanner.Err()` check). -/
def streamErrs (readErr : Bool) (remaining : List GoStr) : List PaletteError :=
  if readErr = true ∧ remaining = [] then [.readError] else []

/-- The body loop of `ReadPalette`: trim each line; skip blanks; append the
tail of a `#` line to the comments; otherwise parse the row, appending the
entry on success and returning the row error (plus any surfaced stream error)
on failure.  Reaching the end of input assembles the palette. -/
def bodyStage (mode : ParsingMode) (readErr : Bool) (name : GoStr) (columns : Int)
    (comments : List GoStr) (entries : List PaletteEntry) :
    List GoStr → Option Palette × List PaletteError
  | [] => (some ⟨name, columns, comments, entries⟩, streamErrs readErr [])
  | line :: rest =>
    let t := trimSpace line
    if t = [] then bodyStage mode readErr name columns comments entries rest
    else if goHasPfx t ['#'] then
      bodyStage mode readErr name columns (comments ++ [t.drop 1]) entries rest
    else
      match parseRow t mode with
      | .ok e => bodyStage mode readErr name columns comments (entries ++ [e]) rest
      | .error errs => (none, errs ++ streamErrs readErr rest)

/-- The `expect columns` step of `ReadPalette`: a missing line or missing
`"Columns: "` marker is `errMissingColumns` in Strict mode and a push-back
(of the read line, or of the zero-value line at end of input) in Lenient
mode; with the marker present, the rest of the line is trimmed and scanned
with `%d`, a scan failure being fatal (`badColumns`) in Strict mode and
leaving `columns` at `0` in Lenient mode. -/
def columnsStage (mode : ParsingMode) (readErr : Bool) (name : GoStr) :
    List GoStr → Option Palette × List PaletteError
  | [] =>
    if mode = .strict then (none, [.missingColumns] ++ streamErrs readErr [])
    else bodyStage mode readErr name 0 [] [] (putBack [] [])
  | line :: rest =>
    if goHasPfx line colPfx then
      match scanInt (trimSpace (line.drop 9)) with
      | none =>
        if mode = .strict then (none, [.badColumns] ++ streamErrs readErr rest)
        else bodyStage mode readErr name 0 [] [] rest
      | some v => bodyStage mode readErr name v [] [] rest
    else
      if mode = .strict then (none, [.missingColumns] ++ streamErrs readErr rest)
      else bodyStage mode readErr name 0 [] [] (putBack line rest)

/-- The `expect name` step of `ReadPalette`: a missing line or missing
`"Name: "` marker is `errMissingName` in Strict mode and a push-back in
Lenient mode; with the marker present the name is the line after `"Name:"`
(5 characters), trimmed. -/
def nameStage (mode : ParsingMode) (readErr : Bool) :
    List GoStr → Option Palette × List PaletteError
  | [] =>
    if mode = .strict then (none, [.missingName] ++ streamErrs readErr [])
    else columnsStage mode readErr [] (putBack [] [])
  | line :: rest =>
    if goHasPfx line namePfx then
      columnsStage mode readErr (trimSpace (line.drop 5)) rest
    else
      if mode = .strict then (none, [.missingName] ++ streamErrs readErr rest)
      else columnsStage mode readErr [] (putBack line rest)

/-- `ReadPalette` over the modelled line source: the first line must equal the
magic header (a missing or different first line is `errBadHeader` in both
modes); then the name, columns and body stages run in order.  The second
component is the combined `multierr` error list (empty list = nil error). -/
def readPalette (lines : List GoStr) (readErr : Bool) (mode : ParsingMode) :
    Option Palette × List PaletteError :=
  match lines with
  | [] => (none, [.badHeader] ++ streamErrs readErr [])
  | l0 :: rest =>
    if l0 = magicHeader then nameStage mode readErr rest
    else (none, [.badHeader] ++ streamErrs readErr rest)

example : fieldsFunc "0 127 255 color 1".data =
    ["0".data, "127".data, "255".data, "color 1".data] := by decide

example : parseRow "255 255".data .lenient =
    .ok ⟨[], ⟨255, 255, 0, 255⟩⟩ := by decide

example : parseRow "-100 999 255".data .lenient =
    .ok ⟨[], ⟨0, 255, 255, 255⟩⟩ := by decide

example : parseRow "xx 999 255".data .strict =
    .error [.malformedRow, .outOfRange] := by decide

example : readPalette ["GIMP Palette".data, "Name: X".data, "Columns: 2".data,
    "0 127 255 red".data] false .strict =
    (some ⟨"X".data, 2, [], [⟨"red".data, ⟨0, 127, 255, 255⟩⟩]⟩, []) := by decide

example : readPalette ["GIMP Palette".data] true .lenient =
    (some ⟨[], 0, [], []⟩, [.readError]) := by decide

example : readPalette ["foobar".data] false .lenient =
    (none, [.badHeader]) := by decide

theorem parseRow_error_ne_nil {line : GoStr} {mode : ParsingMode}
    {errs : List PaletteError} (h : parseRow line mode = .error errs) :
    errs ≠ [] := by
  simp only [parseRow] at h
  split at h
  · rw [Except.error.injEq] at h
    subst h
    simp
  · repeat' split at h
    all_goals (cases h <;> assumption)

theorem bodyStage_snd_readErr (mode : ParsingMode) (n : GoStr) (col : Int) :
    ∀ ls cs es, (bodyStage mode true n col cs es ls).2 ≠ [] := by
  intro ls
  induction ls with
  | nil => intro cs es; simp [bodyStage, streamErrs]
  | cons line rest ih =>
    intro cs es
    simp only [bodyStage]
    split
    · exact ih cs es
    · split
      · exact ih (cs ++ [(trimSpace line).drop 1]) es
      · split
        · rename_i e he
          exact ih cs (es ++ [e])
        · rename_i errs he
          simp only []
          intro hc
          exact parseRow_error_ne_nil he (by
            rcases List.append_eq_nil.mp hc with ⟨h1, _⟩
            exact h1)

theorem bodyStage_fst_indep (mode : ParsingMode) (n : GoStr) (col : Int) :
    ∀ ls cs es re,
    (bodyStage mode re n col cs es ls).1 = (bodyStage mode false n col cs es ls).1 := by
  intro ls
  induction ls with
  | nil => intro cs es re; rfl
  | cons line rest ih =>
    intro cs es re
    simp only [bodyStage]
    by_cases h1 : trimSpace line = []
    · simp only [if_pos h1]
      exact ih cs es re
    · simp only [if_neg h1]
      by_cases h2 : goHasPfx (trimSpace line) ['#'] = true
      · simp only [if_pos h2]
        exact ih (cs ++ [(trimSpace line).drop 1]) es re
      · simp only [if_neg h2]
        cases hp : parseRow (trimSpace line) mode with
        | ok e => exact ih cs (es ++ [e]) re
        | error errs => rfl

theorem columnsStage_fst_indep (mode : ParsingMode) (n : GoStr) (ls : List GoStr)
    (re : Bool) :
    (columnsStage mode re n ls).1 = (columnsStage mode false n ls).1 := by
  cases ls with
  | nil =>
    cases mode <;> simp only [columnsStage] <;> simp
    exact bodyStage_fst_indep ..
  | cons line rest =>
    simp only [columnsStage]
    by_cases h1 : goHasPfx line colPfx = true
    · simp only [if_pos h1]
      cases hs : scanInt (trimSpace (line.drop 9)) with
      | none =>
        cases mode <;> simp
        exact bodyStage_fst_indep ..
      | some v => exact bodyStage_fst_indep ..
    · simp only [if_neg h1]
      cases mode <;> simp
      exact bodyStage_fst_indep ..

theorem nameStage_fst_indep (mode : ParsingMode) (ls : List GoStr) (re : Bool) :
    (nameStage mode re ls).1 = (nameStage mode false ls).1 := by
  cases ls with
  | nil =>
    cases mode <;> simp only [nameStage] <;> simp
    exact columnsStage_fst_indep ..
  | cons line rest =>
    simp only [nameStage]
    by_cases h1 : goHasPfx line namePfx = true
    · simp only [if_pos h1]
      exact columnsStage_fst_indep ..
    · simp only [if_neg h1]
      cases mode <;> simp
      exact columnsStage_fst_indep ..

theorem columnsStage_snd_readErr (mode : ParsingMode) (n : GoStr) (ls : List GoStr) :
    (columnsStage mode true n ls).2 ≠ [] := by
  cases ls with
  | nil =>
    cases mode <;> simp only [columnsStage] <;> simp [streamErrs]
    apply bodyStage_snd_readErr
  | cons line rest =>
    simp only [columnsStage]
    by_cases h1 : goHasPfx line colPfx = true
    · simp only [if_pos h1]
      cases hs : scanInt (trimSpace (line.drop 9)) with
      | none =>
        cases mode <;> simp
        · apply bodyStage_snd_readErr
      | some v => apply bodyStage_snd_readErr
    · simp only [if_neg h1]
      cases mode <;> simp
      apply bodyStage_snd_readErr

theorem nameStage_snd_readErr (mode : ParsingMode) (ls : List GoStr) :
    (nameStage mode true ls).2 ≠ [] := by
  cases ls with
  | nil =>
    cases mode <;> simp only [nameStage] <;> simp [streamErrs]
    apply columnsStage_snd_readErr
  | cons line rest =>
    simp only [nameStage]
    by_cases h1 : goHasPfx line namePfx = true
    · simp only [if_pos h1]
      apply columnsStage_snd_readErr
    · simp only [if_neg h1]
      cases mode <;> simp
      apply columnsStage_snd_readErr

/-- C1 counterexample: a stream that yields the single (well-formed) header
line and then fails with a read error makes `ReadPalette` in Lenient mode
return a NON-nil `Palette` together with a non-nil error, contradicting the
claim that it returns an error and a nil `Palette` and never both. -/
theorem c1_counterexample :
    readPalette [magicHeader] true .lenient = (some ⟨[], 0, [], []⟩, [.readError]) ∧
    (readPalette [magicHeader] true .lenient).1 ≠ none ∧
    (readPalette [magicHeader] true .lenient).2 ≠ [] := by decide

/-- C1 amended: for every input stream that yields some lines and then fails
with a read error, `ReadPalette` (in either mode) returns a non-nil error;
but the returned `Palette` is exactly what it would have been had the stream
ended normally after the same lines — in particular, when every line parses
the decoded non-nil `Palette` is returned together with the non-nil error. -/
theorem c1_amended_readPalette (lines : List GoStr) (mode : ParsingMode) :
    (readPalette lines true mode).2 ≠ [] ∧
    (readPalette lines true mode).1 = (readPalette lines false mode).1 := by
  constructor
  · cases lines with
    | nil => simp [readPalette, streamErrs]
    | cons l0 rest =>
      simp only [readPalette]
      by_cases h : l0 = magicHeader
      · simp only [if_pos h]
        apply nameStage_snd_readErr
      · simp only [if_neg h]
        simp
  · cases lines with
    | nil => rfl
    | cons l0 rest =>
      simp only [readPalette]
      by_cases h : l0 = magicHeader
      · simp only [if_pos h]
        exact nameStage_fst_indep ..
      · simp only [if_neg h]

/-- C2: every input whose first line is not exactly the magic header
(including the empty input) makes `ReadPalette` fail with `badHeader` at the
head of the combined error and return a nil `Palette`, in both modes. -/
theorem c2_badHeader (lines : List GoStr) (readErr : Bool) (mode : ParsingMode)
    (h : lines.head? ≠ some magicHeader) :
    (readPalette lines readErr mode).1 = none ∧
    (readPalette lines readErr mode).2.head? = some .badHeader := by
  cases lines with
  | nil => constructor <;> rfl
  | cons l0 rest =>
    have hl : ¬ l0 = magicHeader := by
      intro he
      exact h (by simp [he])
    constructor <;> simp [readPalette, hl]

theorem c2_badHeader_witness :
    (readPalette ["foobar".data] false .strict).1 = none ∧
    (readPalette ["foobar".data] false .strict).2.head? = some .badHeader :=
  c2_badHeader ["foobar".data] false .strict (by decide)

/-- C7: `putBack` prepends the pushed line at the head of the pending
sequence, keeping the previously pending lines in their original order, and
an arbitrary number of nested push-backs preserves this stack order. -/
theorem c7_putBack (l : GoStr) (s : List GoStr) (ls : List GoStr) :
    putBack l s = l :: s ∧ (putBack l s).head? = some l ∧
    List.foldr putBack s ls = ls ++ s := by
  refine ⟨rfl, rfl, ?_⟩
  induction ls with
  | nil => rfl
  | cons x xs ih => simp [putBack, ih]

theorem parseRow_alpha {line : GoStr} {mode : ParsingMode} {e : PaletteEntry}
    (h : parseRow line mode = .ok e) : e.color.a = 255 := by
  simp only [parseRow] at h
  repeat' split at h
  all_goals (cases h <;> rfl)

theorem bodyStage_alpha (mode : ParsingMode) (re : Bool) (n : GoStr) (col : Int) :
    ∀ ls cs es p, (∀ e ∈ es, e.color.a = 255) →
    (bodyStage mode re n col cs es ls).1 = some p →
    ∀ e ∈ p.entries, e.color.a = 255 := by
  intro ls
  induction ls with
  | nil =>
    intro cs es p hes hp
    simp only [bodyStage, Option.some.injEq] at hp
    rw [← hp]
    exact hes
  | cons line rest ih =>
    intro cs es p hes hp
    simp only [bodyStage] at hp
    by_cases h1 : trimSpace line = []
    · rw [if_pos h1] at hp
      exact ih cs es p hes hp
    · rw [if_neg h1] at hp
      by_cases h2 : goHasPfx (trimSpace line) ['#'] = true
      · rw [if_pos h2] at hp
        exact ih (cs ++ [(trimSpace line).drop 1]) es p hes hp
      · rw [if_neg h2] at hp
        cases hr : parseRow (trimSpace line) mode with
        | ok en =>
          rw [hr] at hp
          refine ih cs (es ++ [en]) p ?_ hp
          intro e he
          rcases List.mem_append.mp he with h | h
          · exact hes e h
          · rw [List.mem_singleton.mp h]
            exact parseRow_alpha hr
        | error errs =>
          rw [hr] at hp
          cases hp

theorem columnsStage_alpha (mode : ParsingMode) (re : Bool) (n : GoStr)
    (ls : List GoStr) (p : Palette) (hp : (columnsStage mode re n ls).1 = some p) :
    ∀ e ∈ p.entries, e.color.a = 255 := by
  cases ls with
  | nil =>
    cases mode <;> simp only [columnsStage] at hp
    · exact bodyStage_alpha _ _ _ _ _ _ _ p (by simp) hp
    · simp at hp
  | cons line rest =>
    simp only [columnsStage] at hp
    by_cases h1 : goHasPfx line colPfx = true
    · rw [if_pos h1] at hp
      cases hs : scanInt (trimSpace (line.drop 9)) with
      | none =>
        rw [hs] at hp
        cases mode <;> simp at hp
        · exact bodyStage_alpha _ _ _ _ _ _ _ p (by simp) hp
      | some v =>
        rw [hs] at hp
        exact bodyStage_alpha _ _ _ _ _ _ _ p (by simp) hp
    · rw [if_neg h1] at hp
      cases mode <;> simp at hp
      · exact bodyStage_alpha _ _ _ _ _ _ _ p (by simp) hp

theorem nameStage_alpha (mode : ParsingMode) (re : Bool)
    (ls : List GoStr) (p : Palette) (hp : (nameStage mode re ls).1 = some p) :
    ∀ e ∈ p.entries, e.color.a = 255 := by
  cases ls with
  | nil =>
    cases mode <;> simp only [nameStage] at hp <;> simp at hp
    · exact columnsStage_alpha _ _ _ _ p hp
  | cons line rest =>
    simp only [nameStage] at hp
    by_cases h1 : goHasPfx line namePfx = true
    · rw [if_pos h1] at hp
      exact columnsStage_alpha _ _ _ _ p hp
    · rw [if_neg h1] at hp
      cases mode <;> simp at hp
      · exact columnsStage_alpha _ _ _ _ p hp

/-- C9: every entry produced by `parseRow`, and hence every entry of a
palette returned by a successful decode in either mode, carries full (255)
alpha; no other alpha value can be produced. -/
theorem c9_alpha (line : GoStr) (lines : List GoStr) (readErr : Bool)
    (mode : ParsingMode) (en : PaletteEntry) (p : Palette) :
    (parseRow line mode = .ok en → en.color.a = 255) ∧
    ((readPalette lines readErr mode).1 = some p →
      ∀ e ∈ p.entries, e.color.a = 255) := by
  constructor
  · exact parseRow_alpha
  · intro hp
    cases lines with
    | nil => cases hp
    | cons l0 rest =>
      simp only [readPalette] at hp
      by_cases h : l0 = magicHeader
      · rw [if_pos h] at hp
        exact nameStage_alpha _ _ _ p hp
      · rw [if_neg h] at hp
        cases hp

theorem c9_alpha_witness :
    (⟨[], ⟨0, 255, 255, 255⟩⟩ : PaletteEntry).color.a = 255 ∧
    (⟨"red".data, ⟨0, 127, 255, 255⟩⟩ : PaletteEntry).color.a = 255 :=
  ⟨(c9_alpha "-100 999 255".data [] false .lenient ⟨[], ⟨0, 255, 255, 255⟩⟩
      ⟨[], 0, [], []⟩).1 (by decide),
   (c9_alpha [] [magicHeader, "Name: X".data, "Columns: 2".data,
      "0 127 255 red".data] false .strict ⟨[], ⟨0, 0, 0, 0⟩⟩
      ⟨"X".data, 2, [], [⟨"red".data, ⟨0, 127, 255, 255⟩⟩]⟩).2 (by decide)
      ⟨"red".data, ⟨0, 127, 255, 255⟩⟩ (by decide)⟩

theorem goIsSpace_of_isDigit {c : Char} (h : c.isDigit = true) :
    goIsSpace c = false := by
  by_contra hs
  rw [Bool.not_eq_false] at hs
  simp only [goIsSpace, Bool.or_eq_true, decide_eq_true_eq] at hs
  rcases hs with ((((((hs | hs) | hs) | hs) | hs) | hs) | hs) | hs <;>
    subst hs <;> exact absurd h (by decide)

theorem ne_dash_of_isDigit {c : Char} (h : c.isDigit = true) :
    c ≠ '-' ∧ c ≠ '+' := by
  constructor <;> (intro he; rw [he] at h; simp [Char.isDigit] at h)

theorem takeWhile_digits_append {junk : GoStr}
    (hj : ∀ j, junk.head? = some j → j.isDigit = false) :
    ∀ ds : GoStr, (∀ c ∈ ds, c.isDigit = true) →
    (ds ++ junk).takeWhile Char.isDigit = ds := by
  intro ds
  induction ds with
  | nil =>
    intro _
    cases junk with
    | nil => rfl
    | cons j js => simp [List.takeWhile_cons, hj j rfl]
  | cons c cs ih =>
    intro hd
    simp only [List.cons_append, List.takeWhile_cons, hd c (by simp), if_pos]
    rw [ih (fun x hx => hd x (by simp [hx]))]

theorem takeWhile_digits_self (ds : GoStr) (hd : ∀ c ∈ ds, c.isDigit = true) :
    ds.takeWhile Char.isDigit = ds := by
  have := @takeWhile_digits_append [] (fun j hj => by cases hj) ds hd
  simpa using this

/-- Evaluation of `scanInt` once the space-skip and sign steps are resolved:
the head of the space-stripped input is not a sign, so the token is taken
from the whole stripped input and the value is non-negated. -/
theorem scanInt_eq_of_parts (s : GoStr) (c0 : Char) (t tok : GoStr)
    (h1 : s.dropWhile goIsSpace = c0 :: t) (hm : c0 ≠ '-') (hp : c0 ≠ '+')
    (h2 : (c0 :: t).takeWhile Char.isDigit = tok) :
    scanInt s =
      (if tok = [] then none
       else if digitsToInt tok < -(2 ^ 63) ∨ 2 ^ 63 - 1 < digitsToInt tok then none
       else some (digitsToInt tok)) := by
  simp only [scanInt, h1, List.head?_cons]
  have hsgn : ¬(some c0 = some '-' ∨ some c0 = some '+') := by
    intro hh
    rcases hh with hh | hh <;> rw [Option.some.injEq] at hh
    · exact hm hh
    · exact hp hh
  rw [if_neg hsgn]
  simp only [List.tail?, h2]
  have hneg : (some c0 = some '-') = False := by
    simp only [Option.some.injEq]
    exact eq_false hm
  simp only [hneg, if_false]

/-- `scanInt` ignores trailing input that starts with a non-digit, when the
field begins with a nonempty digit run. -/
theorem scanInt_digits_append (ds junk : GoStr) (c0 : Char) (cs0 : GoStr)
    (hds : ds = c0 :: cs0) (hd : ∀ c ∈ ds, c.isDigit = true)
    (hj : ∀ j, junk.head? = some j → j.isDigit = false) :
    scanInt (ds ++ junk) = scanInt ds := by
  subst hds
  have hc0 : c0.isDigit = true := hd c0 (by simp)
  have hns : goIsSpace c0 = false := goIsSpace_of_isDigit hc0
  have hnd := ne_dash_of_isDigit hc0
  have e1 : ((c0 :: cs0 : GoStr) ++ junk).dropWhile goIsSpace = c0 :: (cs0 ++ junk) := by
    show ((c0 :: (cs0 ++ junk) : GoStr)).dropWhile goIsSpace = c0 :: (cs0 ++ junk)
    rw [List.dropWhile_cons]
    simp [hns]
  have e2 : ((c0 :: (cs0 ++ junk) : GoStr)).takeWhile Char.isDigit = c0 :: cs0 :=
    takeWhile_digits_append hj (c0 :: cs0) hd
  have e3 : ((c0 :: cs0 : GoStr)).dropWhile goIsSpace = c0 :: cs0 := by
    rw [List.dropWhile_cons]
    simp [hns]
  have e4 : ((c0 :: cs0 : GoStr)).takeWhile Char.isDigit = c0 :: cs0 :=
    takeWhile_digits_self (c0 :: cs0) hd
  rw [scanInt_eq_of_parts ((c0 :: cs0 : GoStr) ++ junk) c0 (cs0 ++ junk) (c0 :: cs0)
      e1 hnd.1 hnd.2 e2,
    scanInt_eq_of_parts (c0 :: cs0) c0 cs0 (c0 :: cs0) e3 hnd.1 hnd.2 e4]

theorem processField_scan_congr {f1 f2 : GoStr} (mode : ParsingMode)
    (h : scanInt f1 = scanInt f2) : processField mode f1 = processField mode f2 := by
  unfold processField
  rw [h]

theorem processField_lenient_snd (f : GoStr) : (processField .lenient f).2 = [] := by
  simp only [processField]
  cases scanInt f with
  | none => simp
  | some v => dsimp only; split <;> simp

theorem processField_lenient_nil : processField .lenient [] = (0, []) := by decide

/-- C5: mode-dependent per-row channel handling.  A row splitting into fewer
than 3 fields fails with `missingField` in Strict mode and, in Lenient mode,
succeeds with the missing trailing channels left at 0 (the example row
`255 255` yields RGB (255,255,0)); a field that does not scan as an integer
contributes `malformedRow` in Strict mode and value 0 in Lenient mode; a
scanned value outside [0,255] contributes `outOfRange` in Strict mode and is
clamped to the nearer bound in Lenient mode (the example row `-100 999 255`
yields RGB (0,255,255)). -/
theorem c5_channel_results (row f : GoStr) (v : Int) :
    ((fieldsFunc row).length < 3 → parseRow row .strict = .error [.missingField]) ∧
    ((fieldsFunc row).length < 3 → parseRow row .lenient =
      .ok ⟨[], ⟨(processField .lenient ((fieldsFunc row).getD 0 [])).1,
        (processField .lenient ((fieldsFunc row).getD 1 [])).1, 0, 255⟩⟩) ∧
    (scanInt f = none →
      processField .strict f = (0, [.malformedRow]) ∧
      processField .lenient f = (0, [])) ∧
    (scanInt f = some v → 255 < v →
      processField .strict f = (255, [.outOfRange]) ∧
      processField .lenient f = (255, [])) ∧
    (scanInt f = some v → v < 0 →
      processField .strict f = (0, [.outOfRange]) ∧
      processField .lenient f = (0, [])) ∧
    parseRow "255 255".data .lenient = .ok ⟨[], ⟨255, 255, 0, 255⟩⟩ ∧
    parseRow "-100 999 255".data .lenient = .ok ⟨[], ⟨0, 255, 255, 255⟩⟩ := by
  refine ⟨?_, ?_, ?_, ?_, ?_, by decide, by decide⟩
  · intro h
    simp only [parseRow]
    rw [if_pos ⟨trivial, h⟩]
  · intro h
    rcases hf : fieldsFunc row with _ | ⟨f0, _ | ⟨f1, _ | ⟨f2, ft⟩⟩⟩
    · simp [parseRow, hf, processField_lenient_snd, processField_lenient_nil]
    · simp [parseRow, hf, processField_lenient_snd, processField_lenient_nil]
    · simp [parseRow, hf, processField_lenient_snd, processField_lenient_nil]
    · exfalso
      rw [hf] at h
      simp at h
      omega
  · intro h
    constructor <;> simp [processField, h]
  · intro h hv
    have hnn : ¬ v < 0 := by omega
    constructor <;> simp [processField, h, hv, hnn]
  · intro h hv
    constructor <;> simp [processField, h, hv]

theorem c5_channel_results_witness :
    parseRow "255 255".data .strict = .error [.missingField] ∧
    parseRow "255 255".data .lenient = .ok ⟨[], ⟨255, 255, 0, 255⟩⟩ ∧
    processField .strict "zz".data = (0, [.malformedRow]) ∧
    processField .lenient "zz".data = (0, []) ∧
    processField .strict "999".data = (255, [.outOfRange]) ∧
    processField .lenient "999".data = (255, []) ∧
    processField .strict "-100".data = (0, [.outOfRange]) ∧
    processField .lenient "-100".data = (0, []) := by
  have h1 := c5_channel_results "255 255".data "zz".data 0
  have h2 := c5_channel_results "255 255".data "999".data 999
  have h3 := c5_channel_results "255 255".data "-100".data (-100)
  refine ⟨h1.1 (by decide), (h1.2.1 (by decide)).trans (by decide),
    (h1.2.2.1 (by decide)).1, (h1.2.2.1 (by decide)).2,
    (h2.2.2.2.1 (by decide) (by decide)).1, (h2.2.2.2.1 (by decide) (by decide)).2,
    (h3.2.2.2.2.1 (by decide) (by decide)).1, (h3.2.2.2.2.1 (by decide) (by decide)).2⟩

/-- C10: a channel field beginning with a nonempty digit run that scans
successfully as an integer, followed by trailing input starting with a
non-digit character, is accepted by the row parser in both modes without
`malformedRow`: it scans to the leading integer and is processed exactly
like the digit run alone (so the usual range handling applies to the leading
integer); e.g. the row `12abc 0 0` parses in Strict mode. -/
theorem c10_trailing_junk (ds junk : GoStr) (c0 : Char) (cs0 : GoStr)
    (mode : ParsingMode) (v : Int)
    (hds : ds = c0 :: cs0) (hd : ∀ c ∈ ds, c.isDigit = true)
    (hj : junk.head?.all (fun j => !j.isDigit) = true)
    (hv : scanInt ds = some v) :
    scanInt (ds ++ junk) = some v ∧
    processField mode (ds ++ junk) = processField mode ds ∧
    .malformedRow ∉ (processField mode (ds ++ junk)).2 ∧
    parseRow "12abc 0 0".data .strict = .ok ⟨[], ⟨12, 0, 0, 255⟩⟩ := by
  have hj2 : ∀ j, junk.head? = some j → j.isDigit = false := by
    intro j hjj
    rw [hjj] at hj
    simpa using hj
  have hsc := scanInt_digits_append ds junk c0 cs0 hds hd hj2
  refine ⟨hsc.trans hv, processField_scan_congr mode hsc, ?_, by decide⟩
  rw [processField_scan_congr mode hsc]
  unfold processField
  rw [hv]
  split
  · rename_i heq
    simp at heq
  · split
    · cases mode <;> simp
    · simp

theorem c10_trailing_junk_witness :
    scanInt "12abc".data = some 12 ∧
    processField .strict "12abc".data = processField .strict "12".data ∧
    .malformedRow ∉ (processField .strict "12abc".data).2 ∧
    parseRow "12abc 0 0".data .strict = .ok ⟨[], ⟨12, 0, 0, 255⟩⟩ := by
  have h := c10_trailing_junk "12".data "abc".data '1' "2".data .strict 12
    (by decide) (by decide) (by decide) (by decide)
  exact h

theorem ite_processField_lenient_snd (c : Prop) [Decidable c] (x : GoStr) :
    (if c then processField .lenient x else ((0 : Nat), ([] : List PaletteError))).2
      = [] := by
  split
  · exact processField_lenient_snd x
  · rfl

/-- In Lenient mode `parseRow` always succeeds, with each present field
processed and each missing trailing field left at 0. -/
theorem parseRow_lenient_eq (t : GoStr) : parseRow t .lenient =
    .ok ⟨if 4 ≤ (fieldsFunc t).length then (fieldsFunc t).getD 3 [] else [],
      ⟨(if 1 ≤ (fieldsFunc t).length then
          processField .lenient ((fieldsFunc t).getD 0 []) else (0, [])).1,
       (if 2 ≤ (fieldsFunc t).length then
          processField .lenient ((fieldsFunc t).getD 1 []) else (0, [])).1,
       (if 3 ≤ (fieldsFunc t).length then
          processField .lenient ((fieldsFunc t).getD 2 []) else (0, [])).1,
       255⟩⟩ := by
  simp only [parseRow]
  rw [if_neg (by simp)]
  rw [if_pos]
  simp only [List.append_eq_nil]
  exact ⟨⟨ite_processField_lenient_snd _ _, ite_processField_lenient_snd _ _⟩,
    ite_processField_lenient_snd _ _⟩

theorem bodyStage_lenient_ok :
    ∀ (ls : List GoStr) (n : GoStr) (col : Int) cs es, ∃ p,
    bodyStage .lenient false n col cs es ls = (some p, []) := by
  intro ls
  induction ls with
  | nil => intro n col cs es; exact ⟨_, rfl⟩
  | cons line rest ih =>
    intro n col cs es
    simp only [bodyStage]
    by_cases h1 : trimSpace line = []
    · rw [if_pos h1]
      exact ih n col cs es
    · rw [if_neg h1]
      by_cases h2 : goHasPfx (trimSpace line) ['#'] = true
      · rw [if_pos h2]
        exact ih n col (cs ++ [(trimSpace line).drop 1]) es
      · rw [if_neg h2]
        rw [parseRow_lenient_eq]
        exact ih n col cs (es ++ [_])

theorem columnsStage_lenient_ok (ls : List GoStr) (n : GoStr) : ∃ p,
    columnsStage .lenient false n ls = (some p, []) := by
  cases ls with
  | nil => exact bodyStage_lenient_ok _ n 0 [] []
  | cons line rest =>
    simp only [columnsStage]
    by_cases h1 : goHasPfx line colPfx = true
    · rw [if_pos h1]
      cases scanInt (trimSpace (line.drop 9)) with
      | none => exact bodyStage_lenient_ok rest n 0 [] []
      | some v => exact bodyStage_lenient_ok rest n v [] []
    · rw [if_neg h1]
      exact bodyStage_lenient_ok _ n 0 [] []

theorem nameStage_lenient_ok (ls : List GoStr) : ∃ p,
    nameStage .lenient false ls = (some p, []) := by
  cases ls with
  | nil =>
    simp only [nameStage]
    rw [if_neg (by simp)]
    exact columnsStage_lenient_ok (putBack [] []) []
  | cons line rest =>
    simp only [nameStage]
    by_cases h1 : goHasPfx line namePfx = true
    · rw [if_pos h1]
      exact columnsStage_lenient_ok rest _
    · rw [if_neg h1]
      rw [if_neg (by simp)]
      exact columnsStage_lenient_ok (putBack line rest) []

/-- C3: with the correct magic header, Lenient decode always succeeds with a
nil error regardless of which metadata lines are present; and in every
metadata configuration the remaining lines are processed as body content
with the claimed field values: a line carrying neither marker (or no line at
all) is pushed back and reprocessed as body content with `Name` empty and
`Columns` 0; a missing name before a `Columns: ` line leaves `Name` empty,
with a non-numeric value leaving `Columns` 0 and a numeric value setting it;
a `Name: ` line followed by a line without the `Columns: ` marker (or by
nothing) sets `Name`, leaves `Columns` 0 and pushes the non-matching line
back to be reprocessed as body content; and a `Name: ` line followed by a
`Columns: ` line sets `Name` and leaves `Columns` 0 when the value is
non-numeric, setting it when numeric. -/
theorem c3_lenient_metadata (rest : List GoStr) :
    ((readPalette (magicHeader :: rest) false .lenient).2 = [] ∧
      (readPalette (magicHeader :: rest) false .lenient).1.isSome = true) ∧
    ((∀ l ∈ rest.take 1, goHasPfx l namePfx = false ∧ goHasPfx l colPfx = false) →
      readPalette (magicHeader :: rest) false .lenient =
        bodyStage .lenient false [] 0 [] [] rest) ∧
    (∀ l rest2, rest = l :: rest2 → goHasPfx l namePfx = false →
      goHasPfx l colPfx = true → scanInt (trimSpace (l.drop 9)) = none →
      readPalette (magicHeader :: rest) false .lenient =
        bodyStage .lenient false [] 0 [] [] rest2) ∧
    (∀ l rest2 v, rest = l :: rest2 → goHasPfx l namePfx = false →
      goHasPfx l colPfx = true → scanInt (trimSpace (l.drop 9)) = some v →
      readPalette (magicHeader :: rest) false .lenient =
        bodyStage .lenient false [] v [] [] rest2) ∧
    (∀ nm rest2, rest = nm :: rest2 → goHasPfx nm namePfx = true →
      (∀ l ∈ rest2.take 1, goHasPfx l colPfx = false) →
      readPalette (magicHeader :: rest) false .lenient =
        bodyStage .lenient false (trimSpace (nm.drop 5)) 0 [] [] rest2) ∧
    (∀ nm cl rest2, rest = nm :: cl :: rest2 → goHasPfx nm namePfx = true →
      goHasPfx cl colPfx = true → scanInt (trimSpace (cl.drop 9)) = none →
      readPalette (magicHeader :: rest) false .lenient =
        bodyStage .lenient false (trimSpace (nm.drop 5)) 0 [] [] rest2) ∧
    (∀ nm cl rest2 v, rest = nm :: cl :: rest2 → goHasPfx nm namePfx = true →
      goHasPfx cl colPfx = true → scanInt (trimSpace (cl.drop 9)) = some v →
      readPalette (magicHeader :: rest) false .lenient =
        bodyStage .lenient false (trimSpace (nm.drop 5)) v [] [] rest2) := by
  have hdr : readPalette (magicHeader :: rest) false .lenient =
      nameStage .lenient false rest := by
    simp only [readPalette]
    rw [if_pos trivial]
  refine ⟨?_, ?_, ?_, ?_, ?_, ?_, ?_⟩
  · rw [hdr]
    obtain ⟨p, hp⟩ := nameStage_lenient_ok rest
    rw [hp]
    exact ⟨rfl, rfl⟩
  · intro hh
    rw [hdr]
    cases rest with
    | nil =>
      simp only [nameStage]
      have hc : goHasPfx ([] : GoStr) colPfx = false := by decide
      simp only [columnsStage, putBack, hc, Bool.false_eq_true, if_false]
      rw [if_neg (by simp)]
      rw [if_neg (by simp)]
      simp only [bodyStage]
      rw [if_pos (by decide)]
    | cons l rest2 =>
      obtain ⟨hn, hc⟩ := hh l (by simp)
      simp only [nameStage, hn, Bool.false_eq_true, if_false]
      rw [if_neg (by simp)]
      simp only [putBack, columnsStage, hc, Bool.false_eq_true, if_false]
      rw [if_neg (by simp)]
  · intro l rest2 hr hn hc hs
    subst hr
    rw [hdr]
    simp only [nameStage, hn, Bool.false_eq_true, if_false]
    rw [if_neg (by simp)]
    simp only [putBack, columnsStage, hc, if_true, hs]
    rw [if_neg (by simp)]
  · intro l rest2 v hr hn hc hs
    subst hr
    rw [hdr]
    simp only [nameStage, hn, Bool.false_eq_true, if_false]
    rw [if_neg (by simp)]
    simp only [putBack, columnsStage, hc, if_true, hs]
  · intro nm rest2 hr hnm hcl
    subst hr
    rw [hdr]
    simp only [nameStage, hnm, if_true]
    cases rest2 with
    | nil =>
      simp only [columnsStage]
      rw [if_neg (by simp)]
      simp only [putBack, bodyStage]
      rw [if_pos (by decide)]
    | cons l rest3 =>
      have hc := hcl l (by simp)
      simp only [columnsStage, hc, Bool.false_eq_true, if_false]
      rw [if_neg (by simp)]
      simp only [putBack]
  · intro nm cl rest2 hr hnm hcl hs
    subst hr
    rw [hdr]
    simp only [nameStage, hnm, if_true]
    simp only [columnsStage, hcl, if_true, hs]
    rw [if_neg (by simp)]
  · intro nm cl rest2 v hr hnm hcl hs
    subst hr
    rw [hdr]
    simp only [nameStage, hnm, if_true]
    simp only [columnsStage, hcl, if_true, hs]

theorem c3_lenient_metadata_witness :
    (readPalette [magicHeader, "0 127 255".data] false .lenient).2 = [] ∧
    (readPalette [magicHeader, "0 127 255".data] false .lenient).1.isSome = true ∧
    readPalette [magicHeader, "0 127 255".data] false .lenient =
      bodyStage .lenient false [] 0 [] [] ["0 127 255".data] ∧
    readPalette [magicHeader, "Columns: x".data, "1 2 3".data] false .lenient =
      bodyStage .lenient false [] 0 [] [] ["1 2 3".data] ∧
    readPalette [magicHeader, "Columns: 2".data, "1 2 3".data] false .lenient =
      bodyStage .lenient false [] 2 [] [] ["1 2 3".data] ∧
    readPalette [magicHeader, "Name: No Columns".data, "0 127 255".data]
      false .lenient =
      bodyStage .lenient false "No Columns".data 0 [] [] ["0 127 255".data] ∧
    readPalette [magicHeader, "Name: M".data, "Columns: foobarxxx".data,
      "9 9 9".data] false .lenient =
      bodyStage .lenient false "M".data 0 [] [] ["9 9 9".data] ∧
    readPalette [magicHeader, "Name: X".data, "Columns: 2".data,
      "0 127 255 red".data] false .lenient =
      bodyStage .lenient false "X".data 2 [] [] ["0 127 255 red".data] := by
  have h1 := c3_lenient_metadata ["0 127 255".data]
  have h2 := c3_lenient_metadata ["Columns: x".data, "1 2 3".data]
  have h3 := c3_lenient_metadata ["Columns: 2".data, "1 2 3".data]
  have h4 := c3_lenient_metadata ["Name: No Columns".data, "0 127 255".data]
  have h5 := c3_lenient_metadata ["Name: M".data, "Columns: foobarxxx".data,
    "9 9 9".data]
  have h6 := c3_lenient_metadata ["Name: X".data, "Columns: 2".data,
    "0 127 255 red".data]
  refine ⟨h1.1.1, h1.1.2, h1.2.1 (by decide),
    h2.2.2.1 "Columns: x".data ["1 2 3".data] rfl (by decide) (by decide)
      (by decide),
    (h3.2.2.2.1 "Columns: 2".data ["1 2 3".data] 2 rfl (by decide) (by decide)
      (by decide)),
    (h4.2.2.2.2.1 "Name: No Columns".data ["0 127 255".data] rfl (by decide)
      (by decide)).trans (by decide),
    (h5.2.2.2.2.2.1 "Name: M".data "Columns: foobarxxx".data ["9 9 9".data] rfl
      (by decide) (by decide) (by decide)).trans (by decide),
    (h6.2.2.2.2.2.2 "Name: X".data "Columns: 2".data ["0 127 255 red".data] 2 rfl
      (by decide) (by decide) (by decide)).trans (by decide)⟩

/-- Spec-side refinement definition for C8: the ordered bodies of the
`#`-prefixed (after trimming) body lines, marker stripped, remainder
unmodified. -/
def specCommentBodies (ls : List GoStr) : List GoStr :=
  ((ls.map trimSpace).filter (fun t => goHasPfx t ['#'])).map (fun t => t.drop 1)

/-- Spec-side refinement definition for C8: the ordered non-blank,
non-comment (entry) body lines, trimmed. -/
def specEntryLines (ls : List GoStr) : List GoStr :=
  (ls.map trimSpace).filter (fun t => !decide (t = []) && !goHasPfx t ['#'])

theorem bodyStage_success_spec (mode : ParsingMode) (n : GoStr) (col : Int) :
    ∀ ls cs es p, bodyStage mode false n col cs es ls = (some p, []) →
    p.comments = cs ++ specCommentBodies ls ∧
    ∃ es2, p.entries = es ++ es2 ∧
      (specEntryLines ls).mapM (fun t => (parseRow t mode).toOption) = some es2 := by
  intro ls
  induction ls with
  | nil =>
    intro cs es p h
    simp only [bodyStage, streamErrs, Prod.mk.injEq, Option.some.injEq] at h
    rw [← h.1]
    refine ⟨by simp [specCommentBodies], [], by simp, rfl⟩
  | cons line rest ih =>
    intro cs es p h
    simp only [bodyStage] at h
    by_cases h1 : trimSpace line = []
    · rw [if_pos h1] at h
      have hpf : goHasPfx ([] : GoStr) ['#'] = false := by decide
      have heq : specCommentBodies (line :: rest) = specCommentBodies rest := by
        simp [specCommentBodies, h1, hpf]
      have heq2 : specEntryLines (line :: rest) = specEntryLines rest := by
        simp [specEntryLines, h1]
      rw [heq, heq2]
      exact ih cs es p h
    · rw [if_neg h1] at h
      by_cases h2 : goHasPfx (trimSpace line) ['#'] = true
      · rw [if_pos h2] at h
        have heq : specCommentBodies (line :: rest) =
            (trimSpace line).drop 1 :: specCommentBodies rest := by
          simp [specCommentBodies, h2]
        have heq2 : specEntryLines (line :: rest) = specEntryLines rest := by
          simp [specEntryLines, h1, h2]
        rw [heq, heq2]
        obtain ⟨hc, es2, he, hm⟩ := ih (cs ++ [(trimSpace line).drop 1]) es p h
        exact ⟨by rw [hc]; simp, es2, he, hm⟩
      · rw [if_neg h2] at h
        have heq : specCommentBodies (line :: rest) = specCommentBodies rest := by
          simp [specCommentBodies, h2]
        have heq2 : specEntryLines (line :: rest) =
            trimSpace line :: specEntryLines rest := by
          simp [specEntryLines, h1, h2]
        rw [heq, heq2]
        cases hp : parseRow (trimSpace line) mode with
        | ok e =>
          rw [hp] at h
          obtain ⟨hc, es2, he, hm⟩ := ih cs (es ++ [e]) p h
          refine ⟨hc, e :: es2, by rw [he]; simp, ?_⟩
          rw [List.mapM_cons, hp, hm]
          rfl
        | error errs =>
          rw [hp] at h
          simp at h

/-- C8: a successful run of the body loop (in either mode, with a clean
stream) produces exactly one comment per `#`-prefixed trimmed body line, in
file order, with the marker stripped and the remainder unmodified, and
exactly one entry per non-blank non-comment body line, in file order, each
entry being the `parseRow` result of its trimmed line; blank lines are
ignored and stored nowhere. -/
theorem c8_body_order (mode : ParsingMode) (n : GoStr) (col : Int) (ls : List GoStr)
    (p : Palette) (h : bodyStage mode false n col [] [] ls = (some p, [])) :
    p.comments = specCommentBodies ls ∧
    (specEntryLines ls).mapM (fun t => (parseRow t mode).toOption) = some p.entries := by
  obtain ⟨hc, es2, he, hm⟩ := bodyStage_success_spec mode n col ls [] [] p h
  refine ⟨by simpa using hc, ?_⟩
  rw [hm, he]
  simp

theorem c8_body_order_witness :
    (⟨[], 0, ["c1".data, "c2".data], [⟨"x".data, ⟨1, 2, 3, 255⟩⟩]⟩ : Palette).comments
      = specCommentBodies ["#c1".data, "".data, "1 2 3 x".data, "#c2".data] ∧
    (specEntryLines ["#c1".data, "".data, "1 2 3 x".data, "#c2".data]).mapM
      (fun t => (parseRow t .lenient).toOption) =
      some (⟨[], 0, ["c1".data, "c2".data],
        [⟨"x".data, ⟨1, 2, 3, 255⟩⟩]⟩ : Palette).entries :=
  c8_body_order .lenient [] 0 ["#c1".data, "".data, "1 2 3 x".data, "#c2".data]
    ⟨[], 0, ["c1".data, "c2".data], [⟨"x".data, ⟨1, 2, 3, 255⟩⟩]⟩ (by decide)

/-- A body line the body loop passes over without aborting: blank after
trimming, a comment, or an entry row that parses in the given mode. -/
def goodBodyLine (mode : ParsingMode) (l : GoStr) : Bool :=
  decide (trimSpace l = []) || goHasPfx (trimSpace l) ['#'] ||
    (parseRow (trimSpace l) mode).toOption.isSome

theorem bodyStage_stops (mode : ParsingMode) (n : GoStr) (col : Int)
    (bad : GoStr) (post : List GoStr) (errs : List PaletteError)
    (hbt : trimSpace bad ≠ []) (hbc : goHasPfx (trimSpace bad) ['#'] = false)
    (hbe : parseRow (trimSpace bad) mode = .error errs) :
    ∀ pre cs es, (∀ l ∈ pre, goodBodyLine mode l = true) →
    bodyStage mode false n col cs es (pre ++ bad :: post) = (none, errs) := by
  intro pre
  induction pre with
  | nil =>
    intro cs es _
    simp only [List.nil_append, bodyStage]
    rw [if_neg hbt, if_neg (by simp [hbc]), hbe]
    simp [streamErrs]
  | cons l pre2 ih =>
    intro cs es hgood
    have hl := hgood l (by simp)
    have hrest : ∀ x ∈ pre2, goodBodyLine mode x = true :=
      fun x hx => hgood x (by simp [hx])
    simp only [List.cons_append, bodyStage]
    by_cases hb : trimSpace l = []
    · rw [if_pos hb]
      exact ih cs es hrest
    · rw [if_neg hb]
      by_cases hcm : goHasPfx (trimSpace l) ['#'] = true
      · rw [if_pos hcm]
        exact ih (cs ++ [(trimSpace l).drop 1]) es hrest
      · rw [if_neg hcm]
        cases hp : parseRow (trimSpace l) mode with
        | ok e => exact ih cs (es ++ [e]) hrest
        | error errs2 =>
          exfalso
          simp only [goodBodyLine, Bool.or_eq_true, decide_eq_true_eq] at hl
          rcases hl with (h1 | h2) | h3
          · exact hb h1
          · exact hcm h2
          · rw [hp] at h3
            simp [Except.toOption] at h3

/-- C4: in Strict mode, for an entry row splitting into at least 3 fields,
`parseRow` either succeeds or fails with exactly the concatenation of all
three fields' faults (every field's `malformedRow` or `outOfRange`,
collected in field order); and the decoder stops at the first faulty body
row: whatever rows follow it are not parsed, the whole decode returns a nil
`Palette`, and the combined error is exactly that row's collected faults. -/
theorem c4_strict_row_faults (row nmLine clLine bad : GoStr) (v : Int)
    (pre post : List GoStr) (errs : List PaletteError)
    (h3f : 3 ≤ (fieldsFunc row).length)
    (hnm : goHasPfx nmLine namePfx = true)
    (hcl : goHasPfx clLine colPfx = true)
    (hclv : scanInt (trimSpace (clLine.drop 9)) = some v)
    (hpre : ∀ l ∈ pre, goodBodyLine .strict l = true)
    (hbt : trimSpace bad ≠ []) (hbc : goHasPfx (trimSpace bad) ['#'] = false)
    (hbe : parseRow (trimSpace bad) .strict = .error errs) :
    (parseRow row .strict = .error
        ((processField .strict ((fieldsFunc row).getD 0 [])).2 ++
         ((processField .strict ((fieldsFunc row).getD 1 [])).2 ++
          (processField .strict ((fieldsFunc row).getD 2 [])).2)) ∨
      ((processField .strict ((fieldsFunc row).getD 0 [])).2 ++
       ((processField .strict ((fieldsFunc row).getD 1 [])).2 ++
        (processField .strict ((fieldsFunc row).getD 2 [])).2)) = []) ∧
    readPalette (magicHeader :: nmLine :: clLine :: (pre ++ bad :: post))
      false .strict = (none, errs) := by
  constructor
  · simp only [parseRow]
    rw [if_neg (fun hh => absurd hh.2 (by omega))]
    rw [if_pos (by omega : 1 ≤ (fieldsFunc row).length)]
    rw [if_pos (by omega : 2 ≤ (fieldsFunc row).length)]
    rw [if_pos h3f]
    by_cases he : ((processField .strict ((fieldsFunc row).getD 0 [])).2 ++
        ((processField .strict ((fieldsFunc row).getD 1 [])).2 ++
         (processField .strict ((fieldsFunc row).getD 2 [])).2)) = []
    · exact Or.inr he
    · left
      rw [if_neg (by simpa using he)]
      simp
  · simp only [readPalette]
    rw [if_pos trivial]
    simp only [nameStage, hnm, if_true]
    simp only [columnsStage, hcl, if_true, hclv]
    exact bodyStage_stops .strict _ v bad post errs hbt hbc hbe pre [] [] hpre

theorem c4_strict_row_faults_witness :
    (parseRow "xx 1 999".data .strict = .error
        ((processField .strict ((fieldsFunc "xx 1 999".data).getD 0 [])).2 ++
         ((processField .strict ((fieldsFunc "xx 1 999".data).getD 1 [])).2 ++
          (processField .strict ((fieldsFunc "xx 1 999".data).getD 2 [])).2)) ∨
      ((processField .strict ((fieldsFunc "xx 1 999".data).getD 0 [])).2 ++
       ((processField .strict ((fieldsFunc "xx 1 999".data).getD 1 [])).2 ++
        (processField .strict ((fieldsFunc "xx 1 999".data).getD 2 [])).2)) = []) ∧
    readPalette [magicHeader, "Name: A".data, "Columns: 2".data, "7 7 7".data,
      "1 2 999".data, "junk junk junk".data] false .strict =
      (none, [.outOfRange]) :=
  c4_strict_row_faults "xx 1 999".data "Name: A".data "Columns: 2".data
    "1 2 999".data 2 ["7 7 7".data] ["junk junk junk".data] [.outOfRange]
    (by decide) (by decide) (by decide) (by decide) (by decide) (by decide)
    (by decide) (by decide)

theorem fieldsAux_nonsep (r : List Char) :
    ∀ (s : List Char) (cnt : Nat) (acc : List Char),
    (∀ ch ∈ s, goIsSpace ch = false) →
    fieldsAux (s ++ r) cnt acc = fieldsAux r cnt (s.reverse ++ acc) := by
  intro s
  induction s with
  | nil => intro cnt acc _; simp
  | cons ch cs ih =>
    intro cnt acc hs
    have hch : goIsSpace ch = false := hs ch (by simp)
    simp only [List.cons_append, fieldsAux]
    rw [if_neg (fun hh => by rw [hch] at hh; exact absurd hh.1 (by simp))]
    show fieldsAux (cs ++ r) cnt (ch :: acc) = fieldsAux r cnt ((ch :: cs).reverse ++ acc)
    rw [ih cnt (ch :: acc) (fun x hx => hs x (by simp [hx]))]
    simp

theorem fieldsAux_sep (w : Char) (r : List Char) (cnt : Nat) (acc : List Char)
    (hw : goIsSpace w = true) (hcnt : cnt < 3) :
    fieldsAux (w :: r) cnt acc =
      (if acc = [] then [] else [acc.reverse]) ++ fieldsAux r (cnt + 1) [] := by
  simp only [fieldsAux]
  rw [if_pos ⟨hw, hcnt⟩]

theorem fieldsAux_done : ∀ (n acc : List Char),
    fieldsAux n 3 acc = if n = [] ∧ acc = [] then [] else [acc.reverse ++ n] := by
  intro n
  induction n with
  | nil =>
    intro acc
    by_cases h : acc = []
    · simp [fieldsAux, h]
    · simp [fieldsAux, h]
  | cons ch cs ih =>
    intro acc
    simp only [fieldsAux]
    rw [if_neg (fun hh => absurd hh.2 (by omega))]
    rw [ih (ch :: acc)]
    simp

theorem fieldsAux_len : ∀ (s : List Char) (cnt : Nat) (acc : List Char),
    (fieldsAux s cnt acc).length ≤ (3 - cnt) + 1 := by
  intro s
  induction s with
  | nil =>
    intro cnt acc
    simp only [fieldsAux]
    split <;> simp
  | cons ch cs ih =>
    intro cnt acc
    simp only [fieldsAux]
    split
    · rename_i hh
      have h2 := ih (cnt + 1) []
      rw [List.length_append]
      have : cnt < 3 := hh.2
      split <;> simp <;> omega
    · exact ih cnt (ch :: acc)

/-- C6 counterexample: the row `1  2 3 x` has a 4th whitespace-delimited
token (`x`), so under the claim (splitting on runs of whitespace) the fields
would be `1`,`2`,`3`,`x` and the entry name would be `x`; but the splitter
counts each of the two consecutive spaces separately toward the three-split
budget, producing the fields `1`,`2`,`3 x` and an empty entry name. -/
theorem c6_counterexample :
    fieldsFunc "1  2 3 x".data = ["1".data, "2".data, "3 x".data] ∧
    parseRow "1  2 3 x".data .lenient = .ok ⟨[], ⟨1, 2, 3, 255⟩⟩ ∧
    ([] : GoStr) ≠ "x".data := by decide

/-- C6 amended: the row is split at individual whitespace characters, with
only the first three whitespace characters encountered acting as separators
(consecutive whitespace characters each consume one of the three splits) and
empty fields dropped, so at most 4 fields result.  When the first three
tokens are separated by single whitespace characters, everything after the
third whitespace character — including any embedded whitespace — becomes
the 4th field and the entry name verbatim; a row with exactly 3
single-space-separated tokens yields the empty name. -/
theorem c6_amended_fields (line a b c n : GoStr) (w1 w2 w3 : Char)
    (ha : a ≠ []) (haw : ∀ ch ∈ a, goIsSpace ch = false)
    (hb : b ≠ []) (hbw : ∀ ch ∈ b, goIsSpace ch = false)
    (hc : c ≠ []) (hcw : ∀ ch ∈ c, goIsSpace ch = false)
    (hw1 : goIsSpace w1 = true) (hw2 : goIsSpace w2 = true)
    (hw3 : goIsSpace w3 = true) :
    (fieldsFunc line).length ≤ 4 ∧
    fieldsFunc (a ++ (w1 :: (b ++ (w2 :: (c ++ (w3 :: n)))))) =
      [a, b, c] ++ (if n = [] then [] else [n]) ∧
    (parseRow (a ++ (w1 :: (b ++ (w2 :: (c ++ (w3 :: n)))))) .lenient).toOption.map
      PaletteEntry.name = some n := by
  have hlen : (fieldsFunc line).length ≤ 4 := by
    have := fieldsAux_len line 0 []
    simpa [fieldsFunc] using this
  have hsplit : fieldsFunc (a ++ (w1 :: (b ++ (w2 :: (c ++ (w3 :: n)))))) =
      [a, b, c] ++ (if n = [] then [] else [n]) := by
    unfold fieldsFunc
    rw [fieldsAux_nonsep _ a 0 [] haw]
    rw [fieldsAux_sep w1 _ 0 _ hw1 (by omega)]
    rw [fieldsAux_nonsep _ b 1 [] hbw]
    rw [fieldsAux_sep w2 _ 1 _ hw2 (by omega)]
    rw [fieldsAux_nonsep _ c 2 [] hcw]
    rw [fieldsAux_sep w3 _ 2 _ hw3 (by omega)]
    rw [fieldsAux_done n []]
    simp [ha, hb, hc]
  refine ⟨hlen, hsplit, ?_⟩
  rw [parseRow_lenient_eq, hsplit]
  by_cases hn : n = []
  · subst hn
    simp [Except.toOption]
  · rw [if_neg hn]
    simp [Except.toOption]

theorem c6_amended_fields_witness :
    (fieldsFunc "0 1 2 3 4".data).length ≤ 4 ∧
    fieldsFunc "10 20 30 my name".data =
      ["10".data, "20".data, "30".data, "my name".data] ∧
    (parseRow "10 20 30 my name".data .lenient).toOption.map
      PaletteEntry.name = some "my name".data := by
  have h := c6_amended_fields "0 1 2 3 4".data "10".data "20".data "30".data
    "my name".data ' ' ' ' ' ' (by decide) (by decide) (by decide) (by decide)
    (by decide) (by decide) (by decide) (by decide) (by decide)
  refine ⟨h.1, ?_, ?_⟩
  · have h2 := h.2.1
    rw [show ("10".data ++ (' ' :: ("20".data ++ (' ' :: ("30".data ++
      (' ' :: "my name".data))))) : GoStr) = "10 20 30 my name".data from by decide] at h2
    rw [h2]
    decide
  · have h3 := h.2.2
    rw [show ("10".data ++ (' ' :: ("20".data ++ (' ' :: ("30".data ++
      (' ' :: "my name".data))))) : GoStr) = "10 20 30 my name".data from by decide] at h3
    exact h3
